import Mathlib

/-!
Verification of the CountingBoats detection pipeline against its
natural-language specification.  The definitions below are shallow
embeddings of the Python source (src/counting_boats/utils/classifier.py,
src/counting_boats/utils/image_cutting_support.py, src/NNclassifier.py):
numpy float arrays are modelled as lists of rationals, file contents as
optional lists of lines, and fallible code returns `Except`.
-/

namespace CountingBoats

/-- A detection record, mirroring the six numeric columns the source keeps
per classification: x, y, confidence, class, width, height
(classifier.py `parse_classifications`, docstring of `process_clusters`). -/
structure Detection where
  x : ℚ
  y : ℚ
  conf : ℚ
  cls : ℚ
  w : ℚ
  h : ℚ
deriving DecidableEq, Repr

/-- The six affine geotransform coefficients, in the order GDAL's
`GetGeoTransform` returns them and the source unpacks them:
`c, a, b, f, d, e = ds.GetGeoTransform()` (image_cutting_support.py,
`pixel2coord` / `coord2pixel`). -/
structure GeoTransform where
  c : ℚ
  a : ℚ
  b : ℚ
  f : ℚ
  d : ℚ
  e : ℚ
deriving DecidableEq, Repr

/-- Forward affine map of `pixel2coord` (image_cutting_support.py:490-507):
`xp = a*x + b*y + a*0.5 + b*0.5 + c`, `yp = d*x + e*y + d*0.5 + e*0.5 + f`. -/
def pixel2coord (gt : GeoTransform) (x y : ℚ) : ℚ × ℚ :=
  (gt.a * x + gt.b * y + gt.a * (1/2) + gt.b * (1/2) + gt.c,
   gt.d * x + gt.e * y + gt.d * (1/2) + gt.e * (1/2) + gt.f)

/-- Inverse map of `coord2pixel` (image_cutting_support.py:509-526):
`xp = (x - b*y - a*0.5 - b*0.5 - c) / a`, `yp = (y - d*x - d*0.5 - e*0.5 - f) / e`.
Note both divisions use only `a` and `e`, and the cross terms subtract
`b*y` and `d*x` of the *projected* input point. -/
def coord2pixel (gt : GeoTransform) (x y : ℚ) : ℚ × ℚ :=
  ((x - gt.b * y - gt.a * (1/2) - gt.b * (1/2) - gt.c) / gt.a,
   (y - gt.d * x - gt.d * (1/2) - gt.e * (1/2) - gt.f) / gt.e)

/-- Composition of the two maps: convert a pixel to projected coordinates
and back, as the round-trip property in the spec describes. -/
def roundTrip (gt : GeoTransform) (x y : ℚ) : ℚ × ℚ :=
  coord2pixel gt (pixel2coord gt x y).1 (pixel2coord gt x y).2

/-- Partition of detections by confidence, mirroring
`remove_low_confidence` (classifier.py:313-326): the first component keeps
rows with confidence `>= threshold`, the second the rows with
confidence `< threshold`, both as boolean-mask row selections. -/
def remove_low_confidence (classifications : List Detection) (threshold : ℚ) :
    List Detection × List Detection :=
  (classifications.filter (fun d => threshold ≤ d.conf),
   classifications.filter (fun d => d.conf < threshold))

/-- The tile iteration grid of `segment_image_for_classification`
(image_cutting_support.py:260-346).  The source raises when the padded
image is not divisible by the stride or the tile size is not divisible by
the stride; otherwise it loops `for i in range(0, height//stride - tile_size//stride)`
and `for j in range(0, 1 + width//stride - tile_size//stride)`, cropping the
tile at `(left, top) = (j*stride, i*stride)` and naming it `_i_j`.  A tile
is skipped when more than 93% of its sampled border pixels are the pad
colour; that test reads image pixels, so it is abstracted here as the
predicate `skip i j` (the instantiation `fun _ _ => false` is an image none
of whose candidate tiles trip the border-emptiness heuristic).  Each
emitted entry is `(i, j, left, top)`. -/
def segment_grid (skip : ℕ → ℕ → Bool) (width height tile_size stride : ℕ) :
    Except String (List (ℕ × ℕ × ℕ × ℕ)) :=
  if width % stride ≠ 0 ∨ height % stride ≠ 0 then
    .error "The image is not exactly divisible by the desired size of subset images"
  else if tile_size % stride ≠ 0 then
    .error "The subset image size indicated is not divisible by the input overlap size"
  else
    .ok ((List.range (height / stride - tile_size / stride)).flatMap (fun i =>
      (List.range (1 + width / stride - tile_size / stride)).filterMap (fun j =>
        if skip i j then none else some (i, j, j * stride, i * stride))))

/-- Errors the label-file parser can raise, mirroring the Python exceptions:
`badName` for `int()` / indexing failures on the file name, `missingFile`
for `open` on a nonexistent path, `ragged` for `np.array` over lines of
differing field counts (followed by `.shape[1]` misuse), `badColumn` for
out-of-range column selection on a uniformly short line width. -/
inductive ParseErr where
  | badName
  | missingFile
  | ragged
  | badColumn
deriving DecidableEq, Repr

/-- A label file: its name and, when the file exists, its list of lines.
Each line is modelled as its list of numeric fields (the source splits the
line on spaces and later converts every field with `astype(np.float64)`). -/
structure LabelFile where
  name : String
  content : Option (List (List ℚ))

/-- Split a character list at every occurrence of a separator character,
the character-level counterpart of Python's `str.split("_")`. -/
def splitOnChar (c : Char) : List Char → List (List Char)
  | [] => [[]]
  | a :: rest =>
    let r := splitOnChar c rest
    if a = c then [] :: r
    else (a :: r.headD []) :: r.tail

/-- Characters before the first occurrence of a pattern, the counterpart
of Python's `s.split(pat)[0]`. -/
def takeBeforePat (pat : List Char) : List Char → List Char
  | [] => []
  | a :: rest => if pat.isPrefixOf (a :: rest) then [] else a :: takeBeforePat pat rest

/-- Digit-string parsing, the counterpart of Python's `int` on the
non-negative numerals appearing in tile file names. -/
def digitsToNat? (cs : List Char) : Option ℕ :=
  if cs = [] then none
  else cs.foldl (fun acc c =>
    acc.bind (fun n => if c.isDigit then some (n * 10 + (c.toNat - 48)) else none)) (some 0)

/-- Row/column extraction of `classification_file_info`
(classifier.py:253-272): `fname.split(".txt")[0].split("_")`, then
`row = int(fname[-2])`, `col = int(fname[-1])`. -/
def nameRowCol (fname : String) : Option (ℕ × ℕ) :=
  let parts := (splitOnChar '_' (takeBeforePat ".txt".toList fname.toList)).reverse
  match parts with
  | col :: row :: _ =>
    match digitsToNat? row, digitsToNat? col with
    | some r, some c => some (r, c)
    | _, _ => none
  | _ => none

/-- Core of `parse_classifications` (classifier.py:274-311) after the file
has been read: an empty line list returns the empty array; `np.array`
over the split lines requires a uniform field count (a ragged input
fails); a uniform count of 5 gains a confidence column of ones; the
column shuffle then reads indices 0-5, so any remaining width below 6
fails; finally x, y, width, height are scaled by the tile size and x, y
shifted by the tile offset. -/
def parseRows (tile_size across down : ℕ) (lines : List (List ℚ)) :
    Except ParseErr (List Detection) :=
  if lines = [] then .ok []
  else
    let wd := (lines.headD []).length
    if ¬ lines.all (fun l => l.length = wd) then .error .ragged
    else
      let rows := if wd = 5 then lines.map (fun l => l ++ [1]) else lines
      let wd' := if wd = 5 then 6 else wd
      if wd' < 6 then .error .badColumn
      else
        .ok (rows.map (fun l =>
          { x := l.getD 1 0 * tile_size + across
            y := l.getD 2 0 * tile_size + down
            conf := l.getD 5 0
            cls := l.getD 0 0
            w := l.getD 3 0 * tile_size
            h := l.getD 4 0 * tile_size }))

/-- Whole-file parser `parse_classifications` (classifier.py:274-311),
including `classification_file_info` (classifier.py:253-272): the file
name is parsed for row/column first, then the file is opened (raising if
it does not exist), then the lines are parsed.  The tile offset is
`across = col * stride`, `down = row * stride`. -/
def parse_classifications (stride tile_size : ℕ) (file : LabelFile) :
    Except ParseErr (List Detection) :=
  match nameRowCol file.name with
  | none => .error .badName
  | some (row, col) =>
    match file.content with
    | none => .error .missingFile
    | some lines => parseRows tile_size (col * stride) (row * stride) lines

/-- Squared Euclidean distance over the (x, y) columns, the quantity under
the square root in `scipy.spatial.distance.pdist(points, metric='euclidean')`. -/
def sqDist (p q : ℚ × ℚ) : ℚ := (p.1 - q.1) ^ 2 + (p.2 - q.2) ^ 2

/-- Floor square root of a natural number, as the count of positive `k`
with `k * k ≤ n`. -/
def natSqrt (n : ℕ) : ℕ :=
  ((List.range (n + 1)).filter (fun k => 0 < k ∧ k * k ≤ n)).length

/-- Rational square root applied to numerator and denominator, the shape
of `Rat.sqrt`; on a perfect square of a rational it is the exact square
root.  Every concrete distance evaluated in the theorems below is such a
perfect square, so this agrees there with the numeric square root the
source computes. -/
def ratSqrt (q : ℚ) : ℚ := mkRat (natSqrt q.num.toNat) (natSqrt q.den)

/-- Euclidean distance between two points, modelling the numeric value
`pdist` computes. -/
def pdistVal (p q : ℚ × ℚ) : ℚ := ratSqrt (sqDist p q)

/-- Average-linkage distance between two clusters of point indices: the
mean of all pairwise point distances, as `scipy.cluster.hierarchy.linkage(distances, 'average')`
uses when merging. -/
def avgDist (dist : ℕ → ℕ → ℚ) (A B : List ℕ) : ℚ :=
  (A.flatMap (fun i => B.map (fun j => dist i j))).sum / (A.length * B.length)

/-- Ordered position pairs `(a, b)` with `a < b < n`, the candidate merge
pairs scanned over the current cluster list. -/
def allPairs (n : ℕ) : List (ℕ × ℕ) :=
  (List.range n).flatMap (fun a => ((List.range n).filter (fun b => a < b)).map (fun b => (a, b)))

/-- Closest pair of clusters under average linkage, scanning pairs in
order and keeping the first strictly smallest (a deterministic tie-break;
scipy's own tie-break likewise depends on input order). -/
def bestPair (dist : ℕ → ℕ → ℚ) (cs : List (List ℕ)) : Option (ℕ × ℕ × ℚ) :=
  (allPairs cs.length).foldl (fun acc ab =>
    let v := avgDist dist (cs.getD ab.1 []) (cs.getD ab.2 [])
    match acc with
    | none => some (ab.1, ab.2, v)
    | some best => if v < best.2.2 then some (ab.1, ab.2, v) else acc) none

/-- Merge the clusters at positions `a < b`, removing both and appending
the union, as the linkage step replaces two clusters by a new one. -/
def mergeAt (a b : ℕ) (cs : List (List ℕ)) : List (List ℕ) :=
  (cs.eraseIdx b).eraseIdx a ++ [cs.getD a [] ++ cs.getD b []]

/-- Agglomerative loop: merge the closest pair while its average-linkage
distance is at most the cutoff.  Because average linkage is monotone,
this equals building the full dendrogram with `linkage` and flattening it
with `fcluster(..., cutoff, criterion='distance')` as the source does. -/
def hacRun (dist : ℕ → ℕ → ℚ) (cutoff : ℚ) : ℕ → List (List ℕ) → List (List ℕ)
  | 0, cs => cs
  | Nat.succ fuel, cs =>
    match bestPair dist cs with
    | none => cs
    | some best =>
      if best.2.2 ≤ cutoff then hacRun dist cutoff fuel (mergeAt best.1 best.2.1 cs)
      else cs

/-- The `cluster` function (classifier.py:366-388): fewer than two rows are
returned as-is (a single row gains cluster id 1); otherwise the (x, y)
columns are clustered by average-linkage hierarchical clustering flattened
at the distance cutoff, and each row gains its flat cluster id. -/
def cluster (pts : List (ℚ × ℚ)) (cutoff : ℚ) : List ((ℚ × ℚ) × ℕ) :=
  if pts.length < 2 then pts.map (fun p => (p, 1))
  else
    let dist := fun i j => pdistVal (pts.getD i (0, 0)) (pts.getD j (0, 0))
    let final := hacRun dist cutoff pts.length ((List.range pts.length).map (fun i => [i]))
    (List.range pts.length).map (fun k =>
      (pts.getD k (0, 0), final.findIdx (fun c => c.contains k) + 1))

/-- Two detections land in the same cluster of a clustering output when
they appear in it with equal cluster ids. -/
def sameClusterIn (out : List ((ℚ × ℚ) × ℕ)) (p q : ℚ × ℚ) : Prop :=
  ∃ a ∈ out, ∃ b ∈ out, a.1 = p ∧ b.1 = q ∧ a.2 = b.2

instance (out : List ((ℚ × ℚ) × ℕ)) (p q : ℚ × ℚ) : Decidable (sameClusterIn out p q) := by
  unfold sameClusterIn; infer_instance

/-- Mean of a list of rationals, modelling `np.mean(..., axis=0)` on one
column (the empty case never arises: `process_clusters` only passes
nonempty clusters). -/
def meanQ (l : List ℚ) : ℚ := l.sum / l.length

/-- Maximum of a list of rationals, modelling `np.max(..., axis=0)` on one
column of a nonempty cluster. -/
def maxQ (l : List ℚ) : ℚ := l.foldl max (l.headD 0)

/-- Mode with ties broken by the smallest value, as
`scipy.stats.mode` returns the smallest of equally common modes. -/
def modeLow (l : List ℚ) : ℚ :=
  l.foldl (fun best a =>
    if l.count a > l.count best ∨ (l.count a = l.count best ∧ a < best) then a else best)
    (l.headD 0)

/-- The `condense` function (classifier.py:409-431) on the six numeric
columns of a cluster: start from the columnwise mean, overwrite the
confidence with the columnwise maximum and the class with the
`scipy.stats.mode` majority class. -/
def condense (cl : List Detection) : Detection :=
  { x := meanQ (cl.map (·.x))
    y := meanQ (cl.map (·.y))
    conf := maxQ (cl.map (·.conf))
    cls := modeLow (cl.map (·.cls))
    w := meanQ (cl.map (·.w))
    h := meanQ (cl.map (·.h)) }

/-- Comparison used to specify `modeLow`: `m` is at least as good a mode
candidate of `l` as `a` when it is strictly more frequent, or equally
frequent and no larger. -/
def keyGE (l : List ℚ) (m a : ℚ) : Prop :=
  l.count a < l.count m ∨ (l.count a = l.count m ∧ m ≤ a)

/-- The static-boat pool `process_day` (classifier.py:109-117,
NNclassifier.py:77-85) feeds into the day-level `cluster` call: from the
per-file pairs `[process_tif(file, ...) for file in files]` it takes
`zip(*...)` and then index `[0]` of the static tuple, i.e. the first
file's static detections only. -/
def process_day_static_pool (results : List (List Detection × List Detection)) :
    List Detection :=
  (results.map Prod.fst).headD []

/-- The union of the per-raster static detection sets of the day, which
the spec says the day-level clustering pass runs over. -/
def day_static_union (results : List (List Detection × List Detection)) :
    List Detection :=
  (results.map Prod.fst).flatten

/-- Date extraction of `get_date_from_filename`
(image_cutting_support.py:558-574): the segment before the first
underscore must be exactly 8 characters, and is reformatted from
`yyyymmdd` to `dd/mm/yyyy`; otherwise the result is `None`. -/
def get_date_from_filename (filename : String) : Option String :=
  let str_date := (splitOnChar '_' filename.toList).headD []
  if str_date.length ≠ 8 then none
  else
    let year := (str_date.take 4).asString
    let month := ((str_date.drop 4).take 2).asString
    let day := ((str_date.drop 6).take 2).asString
    some (day ++ "/" ++ month ++ "/" ++ year)

/-- Day batching of `classify_directory` (classifier.py:136-147): the set
of dates of the directory's files with `None` discarded, and per date the
list of files whose extracted date equals it. -/
def dayBatches (files : List String) : List (List String × String) :=
  let days := (files.filterMap get_date_from_filename).dedup
  days.map (fun day =>
    (files.filter (fun f => get_date_from_filename f = some day), day))

deriving instance DecidableEq for Except

/-- C1 (counterexample): for the concrete non-degenerate geotransform
`(c,a,b,f,d,e) = (0,2,1,0,1,1)` (determinant `a*e - b*d = 1`), applying
`coord2pixel` to the result of `pixel2coord` at pixel `(0,0)` yields
`(-1/2, -3/2)`, which misses `(0,0)` by far more than any floating-point
tolerance such as `1e-6`: `coord2pixel` is not the algebraic inverse of
the forward affine step whenever the rotation terms `b`, `d` are nonzero. -/
theorem coord2pixel_not_inverse_counterexample :
    (⟨0, 2, 1, 0, 1, 1⟩ : GeoTransform).a * (⟨0, 2, 1, 0, 1, 1⟩ : GeoTransform).e -
        (⟨0, 2, 1, 0, 1, 1⟩ : GeoTransform).b * (⟨0, 2, 1, 0, 1, 1⟩ : GeoTransform).d ≠ 0 ∧
    roundTrip ⟨0, 2, 1, 0, 1, 1⟩ 0 0 = (-(1/2), -(3/2)) ∧
    ¬ |(roundTrip ⟨0, 2, 1, 0, 1, 1⟩ 0 0).1 - 0| ≤ 1/1000000 := by
  refine ⟨by norm_num, by with_unfolding_all decide, ?_⟩
  have h : roundTrip ⟨0, 2, 1, 0, 1, 1⟩ 0 0 = (-(1/2), -(3/2)) := by with_unfolding_all decide
  rw [h]
  rw [show (-(1/2 : ℚ), -(3/2 : ℚ)).1 - 0 = -(1/2) by norm_num, abs_neg,
    abs_of_pos (by norm_num : (0 : ℚ) < 1/2)]
  norm_num

/-- C1 (amended): for every axis-aligned geotransform (`b = 0`, `d = 0`,
so the determinant condition reduces to `a ≠ 0` and `e ≠ 0`) and every
pixel coordinate, `coord2pixel` recovers the pixel exactly from the value
of `pixel2coord`: over exact arithmetic the round trip is the identity,
hence within any floating-point tolerance. -/
theorem coord2pixel_inverts_axis_aligned (gt : GeoTransform) (hb : gt.b = 0)
    (hd : gt.d = 0) (ha : gt.a ≠ 0) (he : gt.e ≠ 0) (x y : ℚ) :
    roundTrip gt x y = (x, y) := by
  unfold roundTrip coord2pixel pixel2coord
  rw [Prod.ext_iff]
  constructor
  · simp only [hb, hd]
    field_simp
    ring
  · simp only [hb, hd]
    field_simp
    ring

/-- C1 (witness): the amended round-trip theorem applied to the concrete
axis-aligned geotransform `(c,a,b,f,d,e) = (3,2,0,7,0,5)` at pixel `(4,9)`. -/
theorem coord2pixel_inverts_axis_aligned_witness :
    roundTrip ⟨3, 2, 0, 7, 0, 5⟩ 4 9 = (4, 9) :=
  coord2pixel_inverts_axis_aligned ⟨3, 2, 0, 7, 0, 5⟩ rfl rfl
    (by norm_num) (by norm_num) 4 9

/-- C2 (code evaluated at the failing input): with two rasters on the same
day, the first producing the static detection at `(100,100)` and the
second the static detection at `(200,200)`, the pool `process_day` hands
to the day-level `cluster` call is only the first raster detection list;
the second raster detection is in the union of the per-raster sets but
not in the pool, so it is dropped before the cross-raster clustering pass. -/
theorem process_day_pool_drops_second_raster :
    process_day_static_pool
        [([⟨100, 100, 9/10, 0, 10, 10⟩], []), ([⟨200, 200, 8/10, 0, 10, 10⟩], [])] =
      [⟨100, 100, 9/10, 0, 10, 10⟩] ∧
    (⟨200, 200, 8/10, 0, 10, 10⟩ : Detection) ∈
      day_static_union
        [([⟨100, 100, 9/10, 0, 10, 10⟩], []), ([⟨200, 200, 8/10, 0, 10, 10⟩], [])] ∧
    (⟨200, 200, 8/10, 0, 10, 10⟩ : Detection) ∉
      process_day_static_pool
        [([⟨100, 100, 9/10, 0, 10, 10⟩], []), ([⟨200, 200, 8/10, 0, 10, 10⟩], [])] := by
  with_unfolding_all decide

/-- C3 (code evaluated at the failing input): on a padded `832 x 832`
raster with tile size 416 and stride 104 (and no tile skipped by the
border-emptiness heuristic), the tiler emits the tiles in row-major order
at offsets `(col*stride, row*stride)`, but with only
`832/104 - 416/104 = 4` rows of tiles against
`1 + 832/104 - 416/104 = 5` columns: the row loop is missing the `+ 1`
of the claimed formula, so the bottom row of tiles is never emitted. -/
theorem segment_grid_row_count_bug :
    segment_grid (fun _ _ => false) 832 832 416 104 =
      .ok ((List.range 4).flatMap (fun i =>
        (List.range 5).map (fun j => (i, j, j * 104, i * 104)))) ∧
    (((segment_grid (fun _ _ => false) 832 832 416 104).toOption.getD []).map
      (fun t => t.1)).dedup.length = 4 ∧
    (((segment_grid (fun _ _ => false) 832 832 416 104).toOption.getD []).map
      (fun t => t.2.1)).dedup.length = 5 ∧
    832 / 104 - 416 / 104 + 1 = 5 := by
  refine ⟨by decide, by decide, by decide, by decide⟩

/-- C4 (counterexample): the parser opens the label file unconditionally,
so a missing file raises (modelled as `Except.error`) instead of yielding
the empty sequence the claim promises. -/
theorem parse_missing_file_errors :
    parse_classifications 104 416 ⟨"img_0_1.txt", none⟩ = .error .missingFile ∧
    parse_classifications 104 416 ⟨"img_0_1.txt", none⟩ ≠ .ok [] := by
  with_unfolding_all decide

/-- C4 (amended): for every label file whose name parses to a row/column
pair, an existing but empty file yields the empty detection sequence with
no error, while a missing file is an error rather than an empty sequence. -/
theorem parse_empty_or_missing (stride tile_size r c : ℕ) (name : String)
    (hname : nameRowCol name = some (r, c)) :
    parse_classifications stride tile_size ⟨name, some []⟩ = .ok [] ∧
    parse_classifications stride tile_size ⟨name, none⟩ = .error .missingFile := by
  constructor <;> simp [parse_classifications, hname, parseRows]

/-- C4 (witness): the amended theorem at the concrete file name
`img_0_1.txt`, empty and missing. -/
theorem parse_empty_or_missing_witness :
    parse_classifications 104 416 ⟨"img_0_1.txt", some []⟩ = .ok [] ∧
    parse_classifications 104 416 ⟨"img_0_1.txt", none⟩ = .error .missingFile :=
  parse_empty_or_missing 104 416 0 1 "img_0_1.txt" (by with_unfolding_all decide)

/-- C5 (counterexample): a label file holding one well-formed 6-field
line and one 3-field line is rejected whole (`np.array` over ragged rows,
then `.shape[1]`, fails) instead of skipping the bad line and returning
the detection parsed from the good line. -/
theorem parse_malformed_line_aborts_file :
    parse_classifications 104 416
        ⟨"img_0_1.txt", some [[0, 1/2, 1/2, 1/5, 1/5, 4/5], [0, 1/2, 1/2]]⟩ =
      .error .ragged ∧
    parse_classifications 104 416
        ⟨"img_0_1.txt", some [[0, 1/2, 1/2, 1/5, 1/5, 4/5], [0, 1/2, 1/2]]⟩ ≠
      .ok [⟨312, 208, 4/5, 0, 416/5, 416/5⟩] := by
  with_unfolding_all decide

/-- C5 (amended): whenever a label file contains two lines of different
field counts (in particular one malformed line next to well-formed ones),
the parser aborts the whole file with an error and returns no detections
at all, rather than skipping the malformed line. -/
theorem parse_mixed_widths_error (stride tile_size r c : ℕ) (name : String)
    (hname : nameRowCol name = some (r, c)) (lines : List (List ℚ)) (l1 l2 : List ℚ)
    (h1 : l1 ∈ lines) (h2 : l2 ∈ lines) (hne : l1.length ≠ l2.length) :
    parse_classifications stride tile_size ⟨name, some lines⟩ = .error .ragged := by
  have hnil : lines ≠ [] := List.ne_nil_of_mem h1
  have hragged : ¬ lines.all (fun l => l.length = (lines.headD []).length) := by
    intro hall
    have hall' := List.all_eq_true.mp hall
    have e1 := of_decide_eq_true (hall' l1 h1)
    have e2 := of_decide_eq_true (hall' l2 h2)
    exact hne (e1.trans e2.symm)
  have hmatch : parse_classifications stride tile_size ⟨name, some lines⟩ =
      parseRows tile_size (c * stride) (r * stride) lines := by
    simp only [parse_classifications, hname]
  rw [hmatch]
  simp only [parseRows]
  rw [if_neg hnil, if_pos hragged]

/-- C5 (witness): the amended theorem at a concrete file with a 6-field
line followed by a 2-field line. -/
theorem parse_mixed_widths_error_witness :
    parse_classifications 104 416
        ⟨"img_0_1.txt", some [[1, 2, 3, 4, 5, 6], [7, 8]]⟩ = .error .ragged :=
  parse_mixed_widths_error 104 416 0 1 "img_0_1.txt" (by with_unfolding_all decide)
    [[1, 2, 3, 4, 5, 6], [7, 8]] [1, 2, 3, 4, 5, 6] [7, 8]
    (by simp) (by simp) (by decide)


/-- Helper: `parseRows` on a file whose lines all have 6 fields succeeds
and maps each line through the column shuffle, scaling and offsetting. -/
theorem parseRows_uniform6 (tile_size across down : ℕ) (lines : List (List ℚ))
    (h6 : ∀ l ∈ lines, l.length = 6) :
    parseRows tile_size across down lines = .ok (lines.map (fun l =>
      { x := l.getD 1 0 * tile_size + across
        y := l.getD 2 0 * tile_size + down
        conf := l.getD 5 0
        cls := l.getD 0 0
        w := l.getD 3 0 * tile_size
        h := l.getD 4 0 * tile_size })) := by
  rcases lines with _ | ⟨a, t⟩
  · simp [parseRows]
  · have ha : a.length = 6 := h6 a (by simp)
    have hall : ((a :: t).all fun l => decide (l.length = 6)) = true := by
      rw [List.all_eq_true]
      intro x hx
      exact decide_eq_true (h6 x hx)
    simp only [parseRows, List.headD_cons, ha]
    rw [if_neg (by simp : ¬ (a :: t) = []), if_neg (fun hc => hc hall)]
    norm_num

/-- Helper: `parseRows` on a file whose lines all have 5 fields (manual
annotation files without a confidence column) succeeds, assigning
confidence 1 to every detection. -/
theorem parseRows_uniform5 (tile_size across down : ℕ) (lines : List (List ℚ))
    (h5 : ∀ l ∈ lines, l.length = 5) :
    parseRows tile_size across down lines = .ok (lines.map (fun l =>
      { x := l.getD 1 0 * tile_size + across
        y := l.getD 2 0 * tile_size + down
        conf := 1
        cls := l.getD 0 0
        w := l.getD 3 0 * tile_size
        h := l.getD 4 0 * tile_size })) := by
  rcases lines with _ | ⟨a, t⟩
  · simp [parseRows]
  · have ha : a.length = 5 := h5 a (by simp)
    have hall : ((a :: t).all fun l => decide (l.length = 5)) = true := by
      rw [List.all_eq_true]
      intro x hx
      exact decide_eq_true (h5 x hx)
    simp only [parseRows, List.headD_cons, ha]
    rw [if_neg (by simp : ¬ (a :: t) = []), if_neg (fun hc => hc hall)]
    simp only [reduceIte]
    rw [if_neg (by norm_num : ¬ (6 : ℕ) < 6), List.map_map]
    congr 1
    apply List.map_congr_left
    intro l hl
    have hl5 : l.length = 5 := h5 l hl
    have g0 : (l ++ [(1 : ℚ)]).getD 0 0 = l.getD 0 0 := List.getD_append _ _ _ _ (by omega)
    have g1 : (l ++ [(1 : ℚ)]).getD 1 0 = l.getD 1 0 := List.getD_append _ _ _ _ (by omega)
    have g2 : (l ++ [(1 : ℚ)]).getD 2 0 = l.getD 2 0 := List.getD_append _ _ _ _ (by omega)
    have g3 : (l ++ [(1 : ℚ)]).getD 3 0 = l.getD 3 0 := List.getD_append _ _ _ _ (by omega)
    have g4 : (l ++ [(1 : ℚ)]).getD 4 0 = l.getD 4 0 := List.getD_append _ _ _ _ (by omega)
    have g5 : (l ++ [(1 : ℚ)]).getD 5 0 = 1 := by
      rw [List.getD_append_right _ _ _ _ (by omega), hl5]
      rfl
    simp only [Function.comp_apply, g0, g1, g2, g3, g4, g5]

/-- C8: for every label file whose name parses to row `r` and column `c`,
each 6-field line `cls cx cy w h conf` becomes a detection at full-image
pixel `x = cx*tile_size + c*stride`, `y = cy*tile_size + r*stride` with
the line's confidence, and each line of a 5-field file receives
confidence 1; the concrete instance `img_0_1.txt`, stride 104, tile size
416, line `0 0.5 0.5 0.2 0.2 0.8` is the witness below. -/
theorem parse_classifications_field_mapping (stride tile_size r c : ℕ) (name : String)
    (hname : nameRowCol name = some (r, c)) :
    (∀ lines : List (List ℚ), (∀ l ∈ lines, l.length = 6) →
      parse_classifications stride tile_size ⟨name, some lines⟩ =
        .ok (lines.map (fun l =>
          { x := l.getD 1 0 * tile_size + c * stride
            y := l.getD 2 0 * tile_size + r * stride
            conf := l.getD 5 0
            cls := l.getD 0 0
            w := l.getD 3 0 * tile_size
            h := l.getD 4 0 * tile_size }))) ∧
    (∀ lines : List (List ℚ), (∀ l ∈ lines, l.length = 5) →
      parse_classifications stride tile_size ⟨name, some lines⟩ =
        .ok (lines.map (fun l =>
          { x := l.getD 1 0 * tile_size + c * stride
            y := l.getD 2 0 * tile_size + r * stride
            conf := 1
            cls := l.getD 0 0
            w := l.getD 3 0 * tile_size
            h := l.getD 4 0 * tile_size }))) := by
  constructor
  · intro lines h6
    have hmatch : parse_classifications stride tile_size ⟨name, some lines⟩ =
        parseRows tile_size (c * stride) (r * stride) lines := by
      simp only [parse_classifications, hname]
    rw [hmatch, parseRows_uniform6 _ _ _ _ h6]
    simp only [Nat.cast_mul]
  · intro lines h5
    have hmatch : parse_classifications stride tile_size ⟨name, some lines⟩ =
        parseRows tile_size (c * stride) (r * stride) lines := by
      simp only [parse_classifications, hname]
    rw [hmatch, parseRows_uniform5 _ _ _ _ h5]
    simp only [Nat.cast_mul]

/-- C8 (witness): the file `img_0_1.txt` with stride 104 and tile size
416, containing the single line `0 0.5 0.5 0.2 0.2 0.8`, parses to the
detection at pixel `(312, 208)` with confidence `0.8 = 4/5` and class 0
(and width/height `0.2*416 = 416/5`). -/
theorem parse_classifications_field_mapping_witness :
    parse_classifications 104 416
        ⟨"img_0_1.txt", some [[0, 1/2, 1/2, 1/5, 1/5, 4/5]]⟩ =
      .ok [⟨312, 208, 4/5, 0, 416/5, 416/5⟩] := by
  rw [(parse_classifications_field_mapping 104 416 0 1 "img_0_1.txt"
      (by with_unfolding_all decide)).1
      [[0, 1/2, 1/2, 1/5, 1/5, 4/5]] (by decide)]
  with_unfolding_all decide

/-- C9: a file whose name segment before the first underscore is not
exactly 8 characters long gets date `none` from `get_date_from_filename`,
and `classify_directory`'s day batching excludes it from every batch: it
belongs to no day's file list, and no error arises for it. -/
theorem bad_date_file_excluded (files : List String) (f : String) (_hf : f ∈ files)
    (hlen : ((splitOnChar '_' f.toList).headD []).length ≠ 8) :
    get_date_from_filename f = none ∧ ∀ b ∈ dayBatches files, f ∉ b.1 := by
  have hnone : get_date_from_filename f = none := by
    simp only [get_date_from_filename]
    rw [if_pos hlen]
  refine ⟨hnone, ?_⟩
  intro b hb hfb
  simp only [dayBatches, List.mem_map] at hb
  obtain ⟨day, hday, rfl⟩ := hb
  rw [List.mem_filter] at hfb
  have hsome := of_decide_eq_true hfb.2
  rw [hnone] at hsome
  exact Option.noConfusion hsome

/-- C9 (witness): in a directory holding `bad_x.tif` (prefix `bad`, not 8
characters) and `20230101_a.tif`, the former gets date `none` and is
absent from the single day batch formed. -/
theorem bad_date_file_excluded_witness :
    get_date_from_filename "bad_x.tif" = none ∧
    "bad_x.tif" ∉ ((dayBatches ["bad_x.tif", "20230101_a.tif"]).headD ([], "")).1 := by
  have h := bad_date_file_excluded ["bad_x.tif", "20230101_a.tif"] "bad_x.tif"
    (by simp) (by decide)
  exact ⟨h.1, h.2 _ (by with_unfolding_all decide)⟩

/-- C10: `remove_low_confidence` exactly partitions its input rows: a row
is in the first (kept) list precisely when its confidence is at least the
threshold (equality is kept), in the second precisely when it is below,
the multiplicities of the two outputs sum to the input multiplicity, and
both outputs are sublists of the input (order preserved, rows unmodified). -/
theorem remove_low_confidence_partitions (cs : List Detection) (t : ℚ) :
    (∀ d, d ∈ (remove_low_confidence cs t).1 ↔ d ∈ cs ∧ t ≤ d.conf) ∧
    (∀ d, d ∈ (remove_low_confidence cs t).2 ↔ d ∈ cs ∧ d.conf < t) ∧
    (∀ d, (remove_low_confidence cs t).1.count d + (remove_low_confidence cs t).2.count d
      = cs.count d) ∧
    List.Sublist (remove_low_confidence cs t).1 cs ∧
    List.Sublist (remove_low_confidence cs t).2 cs := by
  refine ⟨?_, ?_, ?_, List.filter_sublist _, List.filter_sublist _⟩
  · intro d
    simp [remove_low_confidence]
  · intro d
    simp [remove_low_confidence]
  · intro d
    induction cs with
    | nil => simp [remove_low_confidence]
    | cons a l ih =>
      simp only [remove_low_confidence] at ih ⊢
      by_cases h : t ≤ a.conf
      · have h2 : ¬ (a.conf < t) := not_lt.mpr h
        rw [List.filter_cons_of_pos (by simpa using h),
          List.filter_cons_of_neg (by simpa using h2),
          List.count_cons, List.count_cons]
        split_ifs <;> omega
      · have h2 : a.conf < t := not_le.mp h
        rw [List.filter_cons_of_neg (by simpa using h),
          List.filter_cons_of_pos (by simpa using h2),
          List.count_cons, List.count_cons]
        split_ifs <;> omega


/-- Helper: a left fold of `max` is at least its initial value. -/
theorem le_foldl_max (l : List ℚ) (a : ℚ) : a ≤ l.foldl max a := by
  induction l generalizing a with
  | nil => exact le_refl a
  | cons b t ih => exact le_trans (le_max_left a b) (ih (max a b))

/-- Helper: a left fold of `max` bounds every list element. -/
theorem mem_le_foldl_max (l : List ℚ) (a x : ℚ) (hx : x ∈ l) : x ≤ l.foldl max a := by
  induction l generalizing a with
  | nil => cases hx
  | cons b t ih =>
    rcases List.mem_cons.mp hx with rfl | h
    · exact le_trans (le_max_right a x) (le_foldl_max t (max a x))
    · exact ih (max a b) h

/-- Helper: a left fold of `max` is the initial value or a list element. -/
theorem foldl_max_mem (l : List ℚ) (a : ℚ) : l.foldl max a = a ∨ l.foldl max a ∈ l := by
  induction l generalizing a with
  | nil => exact Or.inl rfl
  | cons b t ih =>
    rcases ih (max a b) with h | h
    · rcases le_total b a with hba | hab
      · exact Or.inl (by rw [List.foldl_cons, h, max_eq_left hba])
      · exact Or.inr (List.mem_cons.mpr (Or.inl (by rw [List.foldl_cons, h, max_eq_right hab])))
    · exact Or.inr (List.mem_cons_of_mem b h)

/-- Helper: the mode-candidate comparison is transitive. -/
theorem keyGE_trans {l : List ℚ} {x y z : ℚ} (hxy : keyGE l x y) (hyz : keyGE l y z) :
    keyGE l x z := by
  rcases hxy with h1 | ⟨h1, h1b⟩ <;> rcases hyz with h2 | ⟨h2, h2b⟩
  · exact Or.inl (lt_trans h2 h1)
  · exact Or.inl (h2 ▸ h1)
  · exact Or.inl (h1 ▸ h2)
  · exact Or.inr ⟨h2.trans h1, le_trans h1b h2b⟩

/-- Helper: the mode fold picks its initial value or a list element. -/
theorem foldl_mode_mem (l t : List ℚ) (init : ℚ) :
    t.foldl (fun best a =>
      if l.count a > l.count best ∨ (l.count a = l.count best ∧ a < best) then a else best)
      init = init ∨
    t.foldl (fun best a =>
      if l.count a > l.count best ∨ (l.count a = l.count best ∧ a < best) then a else best)
      init ∈ t := by
  induction t generalizing init with
  | nil => exact Or.inl rfl
  | cons b s ih =>
    rw [List.foldl_cons]
    by_cases hb : l.count b > l.count init ∨ (l.count b = l.count init ∧ b < init)
    · rw [if_pos hb]
      rcases ih b with h | h
      · exact Or.inr (List.mem_cons.mpr (Or.inl h))
      · exact Or.inr (List.mem_cons_of_mem b h)
    · rw [if_neg hb]
      rcases ih init with h | h
      · exact Or.inl h
      · exact Or.inr (List.mem_cons_of_mem b h)

/-- Helper: the mode fold result dominates its initial value and every
element it folded over, in the mode-candidate order. -/
theorem foldl_mode_dominates (l t : List ℚ) (init : ℚ) :
    keyGE l (t.foldl (fun best a =>
      if l.count a > l.count best ∨ (l.count a = l.count best ∧ a < best) then a else best)
      init) init ∧
    ∀ x ∈ t, keyGE l (t.foldl (fun best a =>
      if l.count a > l.count best ∨ (l.count a = l.count best ∧ a < best) then a else best)
      init) x := by
  induction t generalizing init with
  | nil => exact ⟨Or.inr ⟨rfl, le_refl _⟩, by intro x hx; cases hx⟩
  | cons b s ih =>
    rw [List.foldl_cons]
    by_cases hb : l.count b > l.count init ∨ (l.count b = l.count init ∧ b < init)
    · rw [if_pos hb]
      obtain ⟨hdom, hall⟩ := ih b
      have hbinit : keyGE l b init := by
        rcases hb with h | ⟨h, h2⟩
        · exact Or.inl h
        · exact Or.inr ⟨h.symm, le_of_lt h2⟩
      refine ⟨keyGE_trans hdom hbinit, ?_⟩
      intro x hx
      rcases List.mem_cons.mp hx with rfl | h
      · exact hdom
      · exact hall x h
    · rw [if_neg hb]
      obtain ⟨hdom, hall⟩ := ih init
      push_neg at hb
      have hinitb : keyGE l init b := by
        rcases lt_or_eq_of_le hb.1 with h | h
        · exact Or.inl h
        · exact Or.inr ⟨h, hb.2 h⟩
      refine ⟨hdom, ?_⟩
      intro x hx
      rcases List.mem_cons.mp hx with rfl | h
      · exact keyGE_trans hdom hinitb
      · exact hall x h

/-- Helper: `maxQ` of a nonempty list is a member and an upper bound. -/
theorem maxQ_spec (l : List ℚ) (h : l ≠ []) :
    maxQ l ∈ l ∧ ∀ x ∈ l, x ≤ maxQ l := by
  constructor
  · rcases foldl_max_mem l (l.headD 0) with he | hm
    · rw [maxQ, he]
      rcases l with _ | ⟨a, t⟩
      · exact absurd rfl h
      · exact List.mem_cons.mpr (Or.inl rfl)
    · exact hm
  · intro x hx
    exact mem_le_foldl_max l (l.headD 0) x hx

/-- Helper: `modeLow` of a nonempty list is a member, no class beats its
count, and classes tying its count are not below it. -/
theorem modeLow_spec (l : List ℚ) (h : l ≠ []) :
    modeLow l ∈ l ∧ ∀ x ∈ l, l.count x ≤ l.count (modeLow l) ∧
      (l.count x = l.count (modeLow l) → modeLow l ≤ x) := by
  constructor
  · rcases foldl_mode_mem l l (l.headD 0) with he | hm
    · rw [modeLow, he]
      rcases l with _ | ⟨a, t⟩
      · exact absurd rfl h
      · exact List.mem_cons.mpr (Or.inl rfl)
    · exact hm
  · intro x hx
    have hd := (foldl_mode_dominates l l (l.headD 0)).2 x hx
    rcases hd with h1 | ⟨h1, h2⟩
    · exact ⟨le_of_lt h1, fun he => absurd (he ▸ h1) (lt_irrefl _)⟩
    · exact ⟨le_of_eq h1, fun _ => h2⟩

/-- C7: for every nonempty cluster, `condense` returns the detection whose
x, y, width and height are the arithmetic means of the members (stated
multiplicatively: mean times size equals sum), whose confidence is the
maximum member confidence (a member bounding all members), and whose class
is a member class of maximal multiplicity, with ties resolved towards the
lowest class; on a singleton cluster it returns the single member exactly. -/
theorem condense_spec (c : List Detection) (hc : c ≠ []) :
    (condense c).x * c.length = (c.map (fun d => d.x)).sum ∧
    (condense c).y * c.length = (c.map (fun d => d.y)).sum ∧
    (condense c).w * c.length = (c.map (fun d => d.w)).sum ∧
    (condense c).h * c.length = (c.map (fun d => d.h)).sum ∧
    (condense c).conf ∈ c.map (fun d => d.conf) ∧
    (∀ d ∈ c, d.conf ≤ (condense c).conf) ∧
    (condense c).cls ∈ c.map (fun d => d.cls) ∧
    (∀ d ∈ c, (c.map (fun x => x.cls)).count d.cls ≤
        (c.map (fun x => x.cls)).count (condense c).cls ∧
      ((c.map (fun x => x.cls)).count d.cls = (c.map (fun x => x.cls)).count (condense c).cls →
        (condense c).cls ≤ d.cls)) ∧
    (∀ d, c = [d] → condense c = d) := by
  have hlen : ((c.length : ℚ)) ≠ 0 := by
    have := List.length_pos.mpr hc
    exact_mod_cast Nat.pos_iff_ne_zero.mp this
  have hmap : ∀ g : Detection → ℚ, c.map g ≠ [] := by
    intro g hg
    exact hc (List.map_eq_nil_iff.mp hg)
  have hmean : ∀ g : Detection → ℚ, meanQ (c.map g) * c.length = (c.map g).sum := by
    intro g
    rw [meanQ, List.length_map]
    field_simp
  refine ⟨hmean _, hmean _, hmean _, hmean _, ?_, ?_, ?_, ?_, ?_⟩
  · exact (maxQ_spec _ (hmap _)).1
  · intro d hd
    exact (maxQ_spec _ (hmap _)).2 d.conf (List.mem_map_of_mem _ hd)
  · exact (modeLow_spec _ (hmap _)).1
  · intro d hd
    exact (modeLow_spec _ (hmap _)).2 d.cls (List.mem_map_of_mem _ hd)
  · rintro d rfl
    show Detection.mk _ _ _ _ _ _ = d
    have hm : ∀ x : ℚ, meanQ [x] = x := by
      intro x
      rw [meanQ]
      norm_num
    have hmx : ∀ x : ℚ, maxQ [x] = x := by
      intro x
      rw [maxQ]
      simp
    have hmd : ∀ x : ℚ, modeLow [x] = x := by
      intro x
      rw [modeLow]
      simp
    cases d
    simp [condense, hm, hmx, hmd]

/-- C7 (witness): the condense specification applied to the concrete
two-element cluster of the spec scenario (positions `(100,100)` and
`(103,101)`, confidences `0.6` and `0.9`): the mean-times-size equation
for the x column at that input. -/
theorem condense_spec_witness :
    (condense [⟨100, 100, 6/10, 0, 10, 10⟩, ⟨103, 101, 9/10, 0, 10, 10⟩]).x *
        ([⟨100, 100, 6/10, 0, 10, 10⟩, ⟨103, 101, 9/10, 0, 10, 10⟩] : List Detection).length =
      (([⟨100, 100, 6/10, 0, 10, 10⟩, ⟨103, 101, 9/10, 0, 10, 10⟩] : List Detection).map
        (fun d => d.x)).sum :=
  (condense_spec [⟨100, 100, 6/10, 0, 10, 10⟩, ⟨103, 101, 9/10, 0, 10, 10⟩]
    (by with_unfolding_all decide)).1

/-- Helper: `cluster` on a two-point list unfolds to the final cluster-id
assignment over the result of the agglomerative run. -/
theorem cluster_pair_eq (p q : ℚ × ℚ) (cutoff : ℚ) :
    cluster [p, q] cutoff =
      (List.range 2).map (fun k =>
        ([p, q].getD k (0, 0),
          (hacRun (fun i j => pdistVal ([p, q].getD i (0, 0)) ([p, q].getD j (0, 0)))
            cutoff 2 ((List.range 2).map (fun i => [i]))).findIdx
            (fun cl => cl.contains k) + 1)) := rfl

/-- Helper: the agglomerative run on two singleton clusters merges them
exactly when the distance of the two points is at most the cutoff. -/
theorem hacRun_pair (p q : ℚ × ℚ) (cutoff : ℚ) :
    hacRun (fun i j => pdistVal ([p, q].getD i (0, 0)) ([p, q].getD j (0, 0))) cutoff 2
        ((List.range 2).map (fun i => [i])) =
      if (pdistVal p q + 0) / (((1 : ℕ) : ℚ) * ((1 : ℕ) : ℚ)) ≤ cutoff then [[0, 1]] else [[0], [1]] := rfl

/-- Helper: `cluster` on a two-point list within the cutoff yields one
shared cluster id. -/
theorem cluster_pair_le (p q : ℚ × ℚ) (cutoff : ℚ)
    (h : (pdistVal p q + 0) / (((1 : ℕ) : ℚ) * ((1 : ℕ) : ℚ)) ≤ cutoff) :
    cluster [p, q] cutoff = [(p, 1), (q, 1)] := by
  rw [cluster_pair_eq, hacRun_pair, if_pos h]
  rfl

/-- Helper: `cluster` on a two-point list beyond the cutoff yields two
distinct cluster ids. -/
theorem cluster_pair_gt (p q : ℚ × ℚ) (cutoff : ℚ)
    (h : ¬ (pdistVal p q + 0) / (((1 : ℕ) : ℚ) * ((1 : ℕ) : ℚ)) ≤ cutoff) :
    cluster [p, q] cutoff = [(p, 1), (q, 2)] := by
  rw [cluster_pair_eq, hacRun_pair, if_neg h]
  rfl

/-- Helper: the Euclidean distance model is symmetric. -/
theorem pdistVal_symm (p q : ℚ × ℚ) : pdistVal q p = pdistVal p q := by
  unfold pdistVal
  congr 1
  unfold sqDist
  ring

/-- C6 (counterexample): three collinear detections at `(0,0)`, `(1,0)`,
`(2,0)` with cutoff `1.2 ≥ 0`: in input order the tied first merge joins
`(0,0)` with `(1,0)`, so they share a cluster; in reversed order the tied
first merge joins `(2,0)` with `(1,0)` instead, after which the average
distance `1.5` to the remaining point exceeds the cutoff, so `(0,0)` and
`(1,0)` no longer share a cluster: the partition depends on input order. -/
theorem cluster_not_permutation_invariant :
    List.Perm [((0 : ℚ), (0 : ℚ)), (1, 0), (2, 0)] [(2, 0), (1, 0), (0, 0)] ∧
    (0 : ℚ) ≤ 6/5 ∧
    sameClusterIn (cluster [(0, 0), (1, 0), (2, 0)] (6/5)) (0, 0) (1, 0) ∧
    ¬ sameClusterIn (cluster [(2, 0), (1, 0), (0, 0)] (6/5)) (0, 0) (1, 0) := by
  refine ⟨by with_unfolding_all decide, by norm_num, ?_, ?_⟩
  · with_unfolding_all decide
  · with_unfolding_all decide

/-- C6 (amended): the partition `cluster` induces is permutation-invariant
for inputs of at most two detections — for a two-element list, the two
detections share a cluster in one input order precisely when they do in
the other, for every cutoff at least 0; with three or more detections and
tied merge distances the counterexample above shows invariance fails. -/
theorem cluster_two_point_permutation_invariant (p q : ℚ × ℚ) (cutoff : ℚ)
    (hc : 0 ≤ cutoff) :
    (sameClusterIn (cluster [p, q] cutoff) p q ↔
      sameClusterIn (cluster [q, p] cutoff) p q) := by
  have hsym : (pdistVal q p + 0) / (((1 : ℕ) : ℚ) * ((1 : ℕ) : ℚ)) =
      (pdistVal p q + 0) / (((1 : ℕ) : ℚ) * ((1 : ℕ) : ℚ)) := by
    rw [pdistVal_symm]
  by_cases h : (pdistVal p q + 0) / (((1 : ℕ) : ℚ) * ((1 : ℕ) : ℚ)) ≤ cutoff
  · rw [cluster_pair_le p q cutoff h, cluster_pair_le q p cutoff (by rw [hsym]; exact h)]
    constructor <;> intro _
    · exact ⟨(p, 1), by simp, (q, 1), by simp, rfl, rfl, rfl⟩
    · exact ⟨(p, 1), by simp, (q, 1), by simp, rfl, rfl, rfl⟩
  · rw [cluster_pair_gt p q cutoff h, cluster_pair_gt q p cutoff (by rw [hsym]; exact h)]
    have hpq : p ≠ q := by
      intro hpq
      subst hpq
      apply h
      have hz : sqDist p p = 0 := by
        unfold sqDist
        ring
      have hzz : pdistVal p p = 0 := by
        rw [pdistVal, hz]
        with_unfolding_all decide
      rw [hzz]
      simpa using hc
    constructor <;> intro hsc
    · obtain ⟨a, ha, b, hb, hap, hbq, heq⟩ := hsc
      rcases List.mem_cons.mp ha with rfl | ha2
      · rcases List.mem_cons.mp hb with rfl | hb2
        · exact (hpq hbq).elim
        · rcases List.mem_cons.mp hb2 with rfl | hb3
          · exact absurd (show (1 : ℕ) = 2 from heq) (by decide)
          · cases hb3
      · rcases List.mem_cons.mp ha2 with rfl | ha3
        · exact (hpq (show q = p from hap).symm).elim
        · cases ha3
    · obtain ⟨a, ha, b, hb, hap, hbq, heq⟩ := hsc
      rcases List.mem_cons.mp ha with rfl | ha2
      · exact (hpq (show q = p from hap).symm).elim
      · rcases List.mem_cons.mp ha2 with rfl | ha3
        · rcases List.mem_cons.mp hb with rfl | hb2
          · exact absurd (show (2 : ℕ) = 1 from heq) (by decide)
          · rcases List.mem_cons.mp hb2 with rfl | hb3
            · exact (hpq hbq).elim
            · cases hb3
        · cases ha3

/-- C6 (witness): the amended two-point invariance at the concrete points
`(0,0)` and `(3,4)` with cutoff 5. -/
theorem cluster_two_point_permutation_invariant_witness :
    (0 : ℚ) ≤ 5 ∧
    (sameClusterIn (cluster [((0 : ℚ), (0 : ℚ)), (3, 4)] 5) (0, 0) (3, 4) ↔
      sameClusterIn (cluster [((3 : ℚ), (4 : ℚ)), (0, 0)] 5) (0, 0) (3, 4)) :=
  ⟨by norm_num, cluster_two_point_permutation_invariant (0, 0) (3, 4) 5 (by norm_num)⟩

end CountingBoats
